import Mathlib

/-!
Shallow embedding of `src/ru/izebit/notify-slack-app.py` (slack-notify-app).

Strings are modelled as `List Char` (`Str`); Python `str.lower()` is modelled
by `Char.toLower` applied characterwise.  `datetime.datetime` values are
modelled by the `DateTime` structure below, compared lexicographically on
`(year, month, day, hour, minute, second, microsecond)` exactly as Python
compares naive datetimes.  Fallible operations are modelled with `Option`.
-/

abbrev Str := List Char

/-- `DUPLICATE_THRESHOLD = 10` (module-level constant). -/
def DUPLICATE_THRESHOLD : Nat := 10

/-- `DELAY_SECONDS = 600` (module-level constant). -/
def DELAY_SECONDS : Nat := 600

/-- Model of a (naive) `datetime.datetime` value. -/
structure DateTime where
  year : Nat
  month : Nat
  day : Nat
  hour : Nat
  minute : Nat
  second : Nat
  microsecond : Nat
deriving DecidableEq

/-- The comparison key of a `datetime`: Python compares naive datetimes
lexicographically on the 7-tuple of fields. -/
def DateTime.key (d : DateTime) : ℕ ×ₗ ℕ ×ₗ ℕ ×ₗ ℕ ×ₗ ℕ ×ₗ ℕ ×ₗ ℕ :=
  toLex (d.year, toLex (d.month, toLex (d.day, toLex (d.hour,
    toLex (d.minute, toLex (d.second, d.microsecond))))))

/-- Python `a < b` on datetimes (lexicographic field comparison). -/
def DateTime.pylt (a b : DateTime) : Bool := decide (a.key < b.key)

/-- Python `max(x, y)` specialised to datetimes: the two-argument `max`
returns `y` exactly when `y > x`, otherwise `x`. -/
def pymax (x y : DateTime) : DateTime := if DateTime.pylt x y then y else x

/-! ## strptime for the two fixed formats of `Log._parse_timestamp`

`datetime.strptime(s, fmt)` succeeds iff the whole text matches the format
regex and the captured fields form a valid `datetime` (the constructor
rejects year 0, a day that does not exist in the month, and out-of-range
seconds).  The composite accept/reject behaviour is modelled below; the two
format strings are `"%Y-%m-%dT%H:%M:%S.%fZ"` and `"%Y-%m-%dT%H:%M:%SZ"`.
-/

/-- The numeric value of a decimal digit character, if it is one. -/
def digitVal (c : Char) : Option Nat :=
  if c.isDigit then some (c.toNat - 48) else none

/-- `%Y`: exactly four decimal digits. -/
def parseYear : Str → Option (Nat × Str)
  | c1 :: c2 :: c3 :: c4 :: rest => do
    let d1 ← digitVal c1
    let d2 ← digitVal c2
    let d3 ← digitVal c3
    let d4 ← digitVal c4
    pure (((d1 * 10 + d2) * 10 + d3) * 10 + d4, rest)
  | _ => none

/-- A one- or two-digit field with an inclusive value range, matching the
strptime alternations (two-digit in-range forms are tried first, then a
single digit): e.g. `%m` is `1[0-2]|0[1-9]|[1-9]`, i.e. `parse2or1 1 12`. -/
def parse2or1 (lo hi : Nat) : Str → Option (Nat × Str)
  | c1 :: c2 :: rest =>
    match digitVal c1, digitVal c2 with
    | some d1, some d2 =>
      let v := d1 * 10 + d2
      if lo ≤ v ∧ v ≤ hi then some (v, rest)
      else if lo ≤ d1 ∧ d1 ≤ hi then some (d1, c2 :: rest)
      else none
    | some d1, none =>
      if lo ≤ d1 ∧ d1 ≤ hi then some (d1, c2 :: rest) else none
    | none, _ => none
  | [c1] => do
    let d1 ← digitVal c1
    if lo ≤ d1 ∧ d1 ≤ hi then pure (d1, []) else none
  | [] => none

/-- Match one literal character of the format string. -/
def expectChar (c : Char) : Str → Option Str
  | x :: rest => if x = c then some rest else none
  | [] => none

/-- Take up to `n` leading decimal digits. -/
def takeDigits : Nat → Str → (List Nat × Str)
  | 0, s => ([], s)
  | n + 1, c :: rest =>
    match digitVal c with
    | some d =>
      let p := takeDigits n rest
      (d :: p.1, p.2)
    | none => ([], c :: rest)
  | _ + 1, [] => ([], [])

/-- `%f`: one to six digits, right-padded with zeros to microseconds
(`"123"` means 123000 µs). -/
def parseMicro (s : Str) : Option (Nat × Str) :=
  let p := takeDigits 6 s
  if p.1.isEmpty then none
  else some ((p.1.foldl (fun a d => a * 10 + d) 0) * 10 ^ (6 - p.1.length), p.2)

/-- Whether `y` is a Gregorian leap year. -/
def isLeap (y : Nat) : Bool := (y % 4 = 0 && y % 100 ≠ 0) || y % 400 = 0

/-- Number of days in month `m` of year `y`. -/
def daysInMonth (y m : Nat) : Nat :=
  if m = 2 then (if isLeap y then 29 else 28)
  else if m = 4 ∨ m = 6 ∨ m = 9 ∨ m = 11 then 30
  else 31

/-- The `datetime` constructor validation: the parsers below already bound
month/hour/minute/second, so what remains is year ≥ 1 and a day that exists
in the month. -/
def mkDateTime (y mo d h mi sec micro : Nat) : Option DateTime :=
  if 1 ≤ y ∧ d ≤ daysInMonth y mo then some ⟨y, mo, d, h, mi, sec, micro⟩
  else none

/-- The shared `%Y-%m-%dT%H:%M:%S` head of both formats. -/
def parseDatePart (s : Str) : Option ((Nat × Nat × Nat × Nat × Nat × Nat) × Str) := do
  let (y, s) ← parseYear s
  let s ← expectChar '-' s
  let (mo, s) ← parse2or1 1 12 s
  let s ← expectChar '-' s
  let (d, s) ← parse2or1 1 31 s
  let s ← expectChar 'T' s
  let (h, s) ← parse2or1 0 23 s
  let s ← expectChar ':' s
  let (mi, s) ← parse2or1 0 59 s
  let s ← expectChar ':' s
  let (sec, s) ← parse2or1 0 59 s
  pure ((y, mo, d, h, mi, sec), s)

/-- `strptime(s, "%Y-%m-%dT%H:%M:%S.%fZ")` (as an `Option`; the Python call
raises on `none`, which `_parse_timestamp` catches). -/
def parse_frac_format (s : Str) : Option DateTime := do
  let (p, s) ← parseDatePart s
  let s ← expectChar '.' s
  let (f, s) ← parseMicro s
  let s ← expectChar 'Z' s
  if s.isEmpty then mkDateTime p.1 p.2.1 p.2.2.1 p.2.2.2.1 p.2.2.2.2.1 p.2.2.2.2.2 f
  else none

/-- `strptime(s, "%Y-%m-%dT%H:%M:%SZ")` (as an `Option`). -/
def parse_whole_format (s : Str) : Option DateTime := do
  let (p, s) ← parseDatePart s
  let s ← expectChar 'Z' s
  if s.isEmpty then mkDateTime p.1 p.2.1 p.2.2.1 p.2.2.2.1 p.2.2.2.2.1 p.2.2.2.2.2 0
  else none

/-- `Log._parse_timestamp`: try the fractional-seconds format, then the
whole-seconds format, and fall back to `datetime.datetime.today()` (passed
in here as `now`) when both raise.  Every exception is caught, so the
function is total. -/
def parse_timestamp (dt_str : Str) (now : DateTime) : DateTime :=
  match parse_frac_format dt_str with
  | some dt => dt
  | none =>
    match parse_whole_format dt_str with
    | some dt => dt
    | none => now

/-! ## The `Log` record -/

/-- One log record.  `message` may be Python `None` (hence `Option`);
`stacktrace` is coerced to the empty string by `__init__` when absent, so it
is a plain `Str`.  Each Lean list entry models a distinct Python `Log`
object: the loader constructs a fresh object per search hit, and Python set
membership on `Log` degenerates to object identity because `__eq__` is
constantly false (see `log_eq_always_false`). -/
structure Log where
  application : Str
  severity : Str
  message : Option Str
  stacktrace : Str
  date : DateTime
deriving DecidableEq

/-- Model of the guard `isinstance(other, Log.__class__)` in `Log.__eq__`:
`Log.__class__` is the metaclass `type`, and a `Log` instance is never
itself a class, so the test is false for every record passed in. -/
def isInstanceOfLogMetaclass (_other : Log) : Bool := false

/-- `Log.__eq__`, translated verbatim: the metaclass guard, then the field
comparisons exactly as written in the source (note that the source compares
`self.message` and `self.stacktrace` against themselves). -/
def log_eq (self other : Log) : Bool :=
  if isInstanceOfLogMetaclass other then
    decide (self.application = other.application) &&
    decide (self.severity = other.severity) &&
    decide (self.date = other.date) &&
    decide (self.message = self.message) &&
    decide (self.stacktrace = self.stacktrace)
  else
    false

/-- Five-field structural equality as §3 of the spec states it
("two records are equal iff application, severity, timestamp, message, and
stackTrace are all equal"); used only to state the divergence from
`log_eq`. -/
def log_eq_spec (r1 r2 : Log) : Bool :=
  decide (r1.application = r2.application) &&
  decide (r1.severity = r2.severity) &&
  decide (r1.date = r2.date) &&
  decide (r1.message = r2.message) &&
  decide (r1.stacktrace = r2.stacktrace)

/-! ## `Log._is_duplicate` -/

/-- The scan loop of `Log._is_duplicate`, over the zipped (case-folded)
character pairs; `result` and `count` are the two mutable counters of the
Python loop, and reaching `threshold` returns early. -/
def dupLoop (threshold : Nat) : List (Char × Char) → Nat → Nat → Bool
  | [], result, count => decide (max result count > threshold)
  | p :: rest, result, count =>
    if p.1 = p.2 then
      if count + 1 ≥ threshold then true
      else dupLoop threshold rest result (count + 1)
    else dupLoop threshold rest (max result count) 0

/-- `Log._is_duplicate(s1, s2, threshold)`: `None` on either side is never a
duplicate; otherwise both strings are lowercased and scanned position by
position up to the shorter length (`List.zip` pairs exactly the aligned
positions). -/
def is_duplicate : Option Str → Option Str → Nat → Bool
  | none, _, _ => false
  | _, none, _ => false
  | some s1, some s2, threshold =>
    dupLoop threshold ((s1.map Char.toLower).zip (s2.map Char.toLower)) 0 0

/-! ## `Log.remove_useless_logs`

The Python code builds `tmp_set = set(items)` and, for every index pair
`i < j`, removes `items[j]` from the set when
`_is_duplicate(items[i].message, items[j].message, DUPLICATE_THRESHOLD)`
holds (the `items[j] in tmp_set` test only guards the removal).  The index
`i` ranges over the full original list, removed or not, so position `j`
survives iff no earlier position duplicates it.  `keepScan` computes exactly
that filter in input order; Python's `items.extend(tmp_set)` emits the
survivors in unspecified set order, so the claims about this function are
stated up to permutation.
-/

/-- Drop each element duplicated by any element occurring earlier in the
original list (`earlier` accumulates all scanned elements, kept or not). -/
def keepScan : List Log → List Log → List Log
  | _, [] => []
  | earlier, x :: rest =>
    if earlier.any fun e => is_duplicate e.message x.message DUPLICATE_THRESHOLD then
      keepScan (earlier ++ [x]) rest
    else
      x :: keepScan (earlier ++ [x]) rest

/-- `Log.remove_useless_logs` (the surviving records, in input order). -/
def remove_useless_logs (items : List Log) : List Log :=
  keepScan [] items

/-! ## `ElasticSearchLoader.load`

The loader is modelled on the sequence of `_load_json` responses (pages of
parsed records): the `while True` loop consumes one page per iteration and
`break`s at the first empty page.  The claims are scoped to sources whose
pages eventually become empty, so a fully consumed response list is treated
as exhaustion.  The grouped result dict is an association list in key
insertion order (Python dicts preserve it).
-/

/-- `result.setdefault(log.application, []); result.get(log.application).append(log)`:
append to the entry keyed by the record's application, or add a new entry at
the end. -/
def addRecord : List (Str × List Log) → Log → List (Str × List Log)
  | [], r => [(r.application, [r])]
  | p :: rest, r =>
    if p.1 = r.application then (p.1, p.2 ++ [r]) :: rest
    else p :: addRecord rest r

/-- Dict lookup on the association-list model (first entry with the key). -/
def lookupApp (a : Str) : List (Str × List Log) → Option (List Log)
  | [] => none
  | p :: rest => if p.1 = a then some p.2 else lookupApp a rest

/-- The body of the record loop in `load`: group the record under its
application and advance the cursor by
`self._last_update_time = max(log.date, self._last_update_time)`. -/
def recordStep (st : List (Str × List Log) × DateTime) (r : Log) :
    List (Str × List Log) × DateTime :=
  (addRecord st.1 r, pymax r.date st.2)

/-- The pagination loop of `load`: stop at the first empty page, otherwise
process every record of the page and continue. -/
def load_pages : List (List Log) → List (Str × List Log) × DateTime →
    List (Str × List Log) × DateTime
  | [], st => st
  | page :: rest, st =>
    if page.isEmpty then st
    else load_pages rest (page.foldl recordStep st)

/-- `ElasticSearchLoader.load`: drain the pages, then apply
`Log.remove_useless_logs` to each application's sequence, returning the
grouped mapping together with the advanced cursor. -/
def load (pages : List (List Log)) (cursor : DateTime) :
    List (Str × List Log) × DateTime :=
  let st := load_pages pages ([], cursor)
  (st.1.map fun p => (p.1, remove_useless_logs p.2), st.2)

/-- The records the pagination loop consumes: the concatenation of the pages
strictly before the first empty page. -/
def flattenBefore : List (List Log) → List Log
  | [] => []
  | page :: rest => if page.isEmpty then [] else page ++ flattenBefore rest

/-! ## `SlackSender` and `Watcher`

Transport activity is modelled as the list of network calls a method makes:
`_send_msg` performs one webhook post, and each inner iteration of
`send_data` performs one `files.upload` call.  Console `print` calls are not
transport and are not modelled.
-/

/-- One network call made by `SlackSender`. -/
inductive SlackEvent where
  /-- `_send_msg(title, text, pretext, color)`: a webhook message post. -/
  | message (title text pretext color : Str) : SlackEvent
  /-- One `files.upload` call made by `send_data` for record `log` of
  application `appName`. -/
  | upload (appName : Str) (log : Log) : SlackEvent
deriving DecidableEq

/-- `SlackSender._send_msg`. -/
def send_msg (title text pretext color : Str) : List SlackEvent :=
  [SlackEvent.message title text pretext color]

/-- `SlackSender.send_info`. -/
def send_info (text : Str) : List SlackEvent :=
  send_msg "Hi".data text ":rocket:".data "good".data

/-- `SlackSender.send_error`. -/
def send_error (text : Str) : List SlackEvent :=
  send_msg "Error:".data text "There is something wrong with me :warning:".data
    "danger".data

/-- `SlackSender.send_data`: return immediately on an empty mapping,
otherwise one upload per record of each application. -/
def send_data (items : List (Str × List Log)) : List SlackEvent :=
  if items.length = 0 then []
  else items.flatMap fun p => p.2.map fun log => SlackEvent.upload p.1 log

/-- One iteration of the `while True` loop in `Watcher.watcher`, as a
function of the outcome of `self._loader.load()`.  `logs` is initialised to
the empty dict; when `load` raises, the handler calls `send_error` once and
`logs` keeps its empty value, after which `send_data(logs)` runs as usual
(`send_data` on the model's mapping performs no transport call that could
itself raise). -/
def watch_iteration (loadResult : Except Str (List (Str × List Log))) :
    List SlackEvent :=
  match loadResult with
  | Except.error e =>
    send_error ("error happened while loading logs from elastic search:".data ++ e)
      ++ send_data []
  | Except.ok logs => send_data logs

/-- Is this event an error alert (a `_send_msg` post with title `"Error:"`,
as produced by `send_error`)? -/
def SlackEvent.isErrorAlert : SlackEvent → Bool
  | SlackEvent.message t _ _ _ => decide (t = "Error:".data)
  | SlackEvent.upload _ _ => false

/-- Is this event a batch file-upload call? -/
def SlackEvent.isUpload : SlackEvent → Bool
  | SlackEvent.message _ _ _ _ => false
  | SlackEvent.upload _ _ => true

/-! ## Specification-side definitions used to state the claims -/

/-- The length of the longest run of consecutive aligned-equal character
pairs in `l`, continuing a current run of length `count` (the mathematical
reading of the counters in `Log._is_duplicate`). -/
def runsFrom : List (Char × Char) → Nat → Nat
  | [], count => count
  | p :: rest, count =>
    if p.1 = p.2 then runsFrom rest (count + 1)
    else max count (runsFrom rest 0)

/-- Two records whose messages are not near-duplicates of each other. -/
def nonDupPair (a b : Log) : Prop :=
  is_duplicate a.message b.message DUPLICATE_THRESHOLD = false

/-! ## Concrete sample data for the witnesses -/

/-- A fixed sample instant. -/
def sampleDate : DateTime := ⟨2023, 1, 2, 3, 4, 5, 0⟩

/-- A sample record. -/
def sampleLog : Log :=
  ⟨"billing".data, "error".data, some "NullPointerException at line 10".data,
    "trace".data, sampleDate⟩

/-- Sample record of application `svc`; its message shares the 22-character
aligned run `connection timeout at ` with `logB`. -/
def logA : Log :=
  ⟨"svc".data, "error".data, some "connection timeout at gateway".data, [],
    ⟨2023, 1, 1, 0, 0, 0, 0⟩⟩

/-- Sample record of application `svc`, a near-duplicate of `logA`. -/
def logB : Log :=
  ⟨"svc".data, "error".data, some "connection timeout at backend".data, [],
    ⟨2023, 1, 1, 0, 0, 1, 0⟩⟩

/-- Sample record of a different application with an unrelated message. -/
def logC : Log :=
  ⟨"other".data, "error".data, some "disk full on /var/lib/elastic".data, [],
    ⟨2023, 1, 1, 0, 0, 2, 0⟩⟩

/-- A sample page sequence: one non-empty page followed by the terminating
empty page. -/
def samplePages : List (List Log) := [[logA, logB, logC], []]

/-! # Theorems -/

/-- C9: for every two `Log` objects — including two with all five fields
identical — `__eq__` returns `False`: the guard tests
`isinstance(other, Log.__class__)`, i.e. membership in the metaclass `type`,
which no `Log` instance satisfies, so the method returns `False` before any
field comparison and no two records ever compare equal. -/
theorem log_eq_always_false (r1 r2 : Log) : log_eq r1 r2 = false := rfl

/-- C2 (counterexample to the spec's equality contract): the spec says two
records are equal iff all five fields are pairwise equal, but `Log.__eq__`
returns `False` even for a record compared with itself, while the intended
five-field structural equality (`log_eq_spec`) returns `True` there. -/
theorem log_eq_contradicts_structural_equality :
    log_eq sampleLog sampleLog = false ∧ log_eq_spec sampleLog sampleLog = true := by
  exact ⟨rfl, by decide⟩

/-- C8: `send_data` on the empty grouped mapping returns immediately and
performs zero transport calls — no file upload and no message post. -/
theorem send_data_empty_no_transport : send_data [] = [] := rfl

/-- C6: in a `Watcher.watcher` iteration whose load step raises, exactly one
error notification (a `_send_msg` post with title `"Error:"`) is sent, the
batch is treated as empty, and zero file-upload calls are emitted. -/
theorem watch_iteration_load_failure (e : Str) :
    (watch_iteration (Except.error e)).countP (fun ev => SlackEvent.isErrorAlert ev) = 1 ∧
    (watch_iteration (Except.error e)).countP (fun ev => SlackEvent.isUpload ev) = 0 := by
  constructor <;>
    simp [watch_iteration, send_error, send_msg, send_data,
      SlackEvent.isErrorAlert, SlackEvent.isUpload, List.countP_cons]

/-- C7: timestamp parsing is total and never raises: a text matching the
fractional-seconds UTC format yields the corresponding instant with
microsecond precision, a text matching only the whole-seconds UTC format
yields that instant at whole-second precision, and every other input falls
back to the supplied current time instead of an error. -/
theorem parse_timestamp_total_with_fallback (now : DateTime) :
    parse_timestamp "2023-01-02T03:04:05.123456Z".data now = ⟨2023, 1, 2, 3, 4, 5, 123456⟩ ∧
    parse_timestamp "2023-01-02T03:04:05Z".data now = ⟨2023, 1, 2, 3, 4, 5, 0⟩ ∧
    parse_timestamp "not-a-date".data now = now ∧
    (∀ s : Str, parse_frac_format s = none → parse_whole_format s = none →
      parse_timestamp s now = now) := by
  refine ⟨rfl, rfl, rfl, ?_⟩
  intro s h1 h2
  simp [parse_timestamp, h1, h2]

/-- Witness for C7's fallback clause at the concrete input `"not-a-date"`. -/
theorem parse_timestamp_total_with_fallback_witness :
    parse_timestamp "not-a-date".data ⟨2024, 6, 1, 12, 0, 0, 0⟩ = ⟨2024, 6, 1, 12, 0, 0, 0⟩ :=
  (parse_timestamp_total_with_fallback ⟨2024, 6, 1, 12, 0, 0, 0⟩).2.2.2
    "not-a-date".data (by decide) (by decide)

/-! ## Run-length lemmas for `Log._is_duplicate` (claim C1) -/

/-- The continued-run length is at least the current count. -/
theorem runsFrom_ge (l : List (Char × Char)) : ∀ c, c ≤ runsFrom l c := by
  induction l with
  | nil => intro c; exact le_refl c
  | cons p rest ih =>
    intro c
    by_cases h : p.1 = p.2
    · simpa [runsFrom, h] using le_trans (Nat.le_succ c) (ih (c + 1))
    · simp only [runsFrom, if_neg h]
      exact le_max_left c (runsFrom rest 0)

/-- `runsFrom` is monotone in the current count. -/
theorem runsFrom_mono (l : List (Char × Char)) :
    ∀ c c', c ≤ c' → runsFrom l c ≤ runsFrom l c' := by
  induction l with
  | nil => intro c c' h; exact h
  | cons p rest ih =>
    intro c c' h
    by_cases hp : p.1 = p.2
    · simpa [runsFrom, hp] using ih (c + 1) (c' + 1) (Nat.succ_le_succ h)
    · simpa [runsFrom, hp] using max_le_max h (le_refl (runsFrom rest 0))

/-- The scan loop of `_is_duplicate` decides whether the longest aligned
run (continued from the current count) reaches the threshold, as long as
both counters are still below it. -/
theorem dupLoop_correct (t : Nat) (l : List (Char × Char)) :
    ∀ r c, r < t → c < t →
      dupLoop t l r c = decide (t ≤ max r (runsFrom l c)) := by
  induction l with
  | nil =>
    intro r c hr hc
    have hrf : runsFrom ([] : List (Char × Char)) c = c := rfl
    have hmax : max r c < t := max_lt hr hc
    rw [show dupLoop t [] r c = decide (max r c > t) from rfl, hrf]
    rw [decide_eq_false (by omega), decide_eq_false (by omega)]
  | cons p rest ih =>
    intro r c hr hc
    by_cases hp : p.1 = p.2
    · by_cases hth : c + 1 ≥ t
      · have hge : t ≤ max r (runsFrom rest (c + 1)) :=
          le_trans (le_trans hth (runsFrom_ge rest (c + 1))) (le_max_right r _)
        simp [dupLoop, runsFrom, hp, hth, hge]
      · have hlt : c + 1 < t := lt_of_not_ge hth
        simp only [dupLoop, runsFrom, hp, if_pos rfl, if_true, hth, if_false]
        exact ih r (c + 1) hr hlt
    · have hmax : max r c < t := max_lt hr hc
      have h0 : 0 < t := by omega
      have hstep : dupLoop t (p :: rest) r c = dupLoop t rest (max r c) 0 := by
        simp [dupLoop, hp]
      have hrf : runsFrom (p :: rest) c = max c (runsFrom rest 0) := by
        simp [runsFrom, hp]
      rw [hstep, ih (max r c) 0 hmax h0, hrf, max_assoc]

/-- `_is_duplicate` on two non-null messages decides whether the longest
aligned run of equal case-folded characters reaches the threshold. -/
theorem is_duplicate_eq_runs (s1 s2 : List Char) :
    is_duplicate (some s1) (some s2) DUPLICATE_THRESHOLD =
      decide (DUPLICATE_THRESHOLD ≤
        runsFrom ((s1.map Char.toLower).zip (s2.map Char.toLower)) 0) := by
  rw [show is_duplicate (some s1) (some s2) DUPLICATE_THRESHOLD =
      dupLoop DUPLICATE_THRESHOLD ((s1.map Char.toLower).zip (s2.map Char.toLower)) 0 0
      from rfl]
  rw [dupLoop_correct DUPLICATE_THRESHOLD _ 0 0 (by decide) (by decide)]
  rw [Nat.zero_max]

/-- If all of `mid` consists of aligned-equal pairs, the run through
`mid ++ suf` continues the current count through all of `mid`. -/
theorem runsFrom_all_eq_append (mid : List (Char × Char)) :
    ∀ (suf : List (Char × Char)) (c : Nat), (∀ p ∈ mid, p.1 = p.2) →
      c + mid.length ≤ runsFrom (mid ++ suf) c := by
  induction mid with
  | nil => intro suf c _; simpa using runsFrom_ge suf c
  | cons p mid ih =>
    intro suf c hall
    have hp : p.1 = p.2 := hall p (List.mem_cons_self p mid)
    have h2 := ih suf (c + 1) (fun q hq => hall q (List.mem_cons_of_mem p hq))
    have hrf : runsFrom ((p :: mid) ++ suf) c = runsFrom (mid ++ suf) (c + 1) := by
      simp [runsFrom, hp]
    rw [hrf, List.length_cons]
    omega

/-- A longest run in a suffix is a lower bound for the whole list. -/
theorem runsFrom_le_append (pre : List (Char × Char)) :
    ∀ rest : List (Char × Char), runsFrom rest 0 ≤ runsFrom (pre ++ rest) 0 := by
  induction pre with
  | nil => intro rest; exact le_refl _
  | cons p pre ih =>
    intro rest
    by_cases hp : p.1 = p.2
    · calc runsFrom rest 0 ≤ runsFrom (pre ++ rest) 0 := ih rest
        _ ≤ runsFrom (pre ++ rest) 1 := runsFrom_mono _ 0 1 (by omega)
        _ = runsFrom ((p :: pre) ++ rest) 0 := by simp [runsFrom, hp]
    · calc runsFrom rest 0 ≤ runsFrom (pre ++ rest) 0 := ih rest
        _ ≤ max 0 (runsFrom (pre ++ rest) 0) := le_max_right 0 _
        _ = runsFrom ((p :: pre) ++ rest) 0 := by simp [runsFrom, hp]

/-- If the continued-run length reaches `n`, either a run continuing the
current count from the start of `l` accounts for it, or `l` contains a
contiguous segment of `n` aligned-equal pairs. -/
theorem runsFrom_ge_imp (l : List (Char × Char)) :
    ∀ (c n : Nat), n ≤ runsFrom l c →
      (∃ mid suf, l = mid ++ suf ∧ (∀ p ∈ mid, p.1 = p.2) ∧ n ≤ c + mid.length) ∨
      (∃ pre mid suf, l = pre ++ mid ++ suf ∧ (∀ p ∈ mid, p.1 = p.2) ∧ n ≤ mid.length) := by
  induction l with
  | nil =>
    intro c n h
    exact Or.inl ⟨[], [], rfl, by simp, by simpa using h⟩
  | cons p rest ih =>
    intro c n h
    by_cases hp : p.1 = p.2
    · have h' : n ≤ runsFrom rest (c + 1) := by simpa [runsFrom, hp] using h
      rcases ih (c + 1) n h' with ⟨mid, suf, heq, hall, hlen⟩ | ⟨pre, mid, suf, heq, hall, hlen⟩
      · refine Or.inl ⟨p :: mid, suf, by rw [heq, List.cons_append], ?_, ?_⟩
        · intro q hq
          rcases List.mem_cons.mp hq with hq | hq
          · rw [hq]; exact hp
          · exact hall q hq
        · simp only [List.length_cons]; omega
      · exact Or.inr ⟨p :: pre, mid, suf, by rw [heq]; simp [List.cons_append], hall, hlen⟩
    · have h' : n ≤ max c (runsFrom rest 0) := by simpa [runsFrom, hp] using h
      rcases le_max_iff.mp h' with hc | hrest
      · exact Or.inl ⟨[], p :: rest, rfl, by simp, by simpa using hc⟩
      · rcases ih 0 n hrest with ⟨mid, suf, heq, hall, hlen⟩ | ⟨pre, mid, suf, heq, hall, hlen⟩
        · refine Or.inr ⟨[p], mid, suf, by rw [heq]; simp, hall, by omega⟩
        · exact Or.inr ⟨p :: pre, mid, suf, by rw [heq]; simp [List.cons_append], hall, hlen⟩

/-- C1: for every pair of non-null messages, `_is_duplicate` with the
threshold 10 returns true exactly when, after case-folding, the two strings
share a positionally aligned run of at least 10 equal characters (the
aligned positions are the entries of the zip of the case-folded strings);
in particular it returns false whenever the longest such run — including
the final run at the end of the scan — is shorter than 10. -/
theorem is_duplicate_iff_aligned_run (s1 s2 : List Char) :
    is_duplicate (some s1) (some s2) DUPLICATE_THRESHOLD = true ↔
      ∃ pre mid suf,
        (s1.map Char.toLower).zip (s2.map Char.toLower) = pre ++ mid ++ suf ∧
        DUPLICATE_THRESHOLD ≤ mid.length ∧ ∀ p ∈ mid, p.1 = p.2 := by
  rw [is_duplicate_eq_runs, decide_eq_true_eq]
  constructor
  · intro h
    rcases runsFrom_ge_imp _ 0 _ h with ⟨mid, suf, heq, hall, hlen⟩ |
      ⟨pre, mid, suf, heq, hall, hlen⟩
    · exact ⟨[], mid, suf, by simpa using heq, by simpa using hlen, hall⟩
    · exact ⟨pre, mid, suf, heq, hlen, hall⟩
  · rintro ⟨pre, mid, suf, heq, hlen, hall⟩
    rw [heq, List.append_assoc]
    calc DUPLICATE_THRESHOLD ≤ 0 + mid.length := by omega
      _ ≤ runsFrom (mid ++ suf) 0 := runsFrom_all_eq_append mid suf 0 hall
      _ ≤ runsFrom (pre ++ (mid ++ suf)) 0 := runsFrom_le_append pre (mid ++ suf)

/-! ## Deduplicator lemmas (claims C3 and C10) -/

/-- The scan of `_is_duplicate` is insensitive to swapping the two strings:
swapping every zipped pair leaves the loop's answer unchanged. -/
theorem dupLoop_swap (t : Nat) (l : List (Char × Char)) :
    ∀ r c, dupLoop t (l.map Prod.swap) r c = dupLoop t l r c := by
  induction l with
  | nil => intro r c; rfl
  | cons p rest ih =>
    intro r c
    by_cases hp : p.1 = p.2
    · have hps : p.swap.1 = p.swap.2 := by simp [Prod.swap, hp]
      by_cases hth : c + 1 ≥ t
      · simp [dupLoop, hp, hps, hth]
      · simp [dupLoop, hp, hps, hth, ih]
    · have hps : ¬p.2 = p.1 := fun h => hp h.symm
      simp [dupLoop, hp, hps, ih]

/-- `_is_duplicate` is symmetric in its two message arguments. -/
theorem is_duplicate_symm (m1 m2 : Option Str) (t : Nat) :
    is_duplicate m1 m2 t = is_duplicate m2 m1 t := by
  cases m1 with
  | none => cases m2 <;> rfl
  | some s1 =>
    cases m2 with
    | none => rfl
    | some s2 =>
      show dupLoop t ((s1.map Char.toLower).zip (s2.map Char.toLower)) 0 0 =
        dupLoop t ((s2.map Char.toLower).zip (s1.map Char.toLower)) 0 0
      rw [← List.zip_swap (s2.map Char.toLower) (s1.map Char.toLower)]
      exact dupLoop_swap t _ 0 0

/-- `nonDupPair` is a symmetric relation. -/
theorem nonDupPair_symm : Symmetric nonDupPair := by
  intro a b h
  unfold nonDupPair at h ⊢
  rw [is_duplicate_symm]
  exact h

/-- Every survivor of the scan is an element of the scanned list. -/
theorem keepScan_subset (l : List Log) :
    ∀ earlier, ∀ x ∈ keepScan earlier l, x ∈ l := by
  induction l with
  | nil => intro earlier x hx; simp [keepScan] at hx
  | cons y rest ih =>
    intro earlier x hx
    by_cases h : earlier.any fun e => is_duplicate e.message y.message DUPLICATE_THRESHOLD
    · rw [keepScan, if_pos h] at hx
      exact List.mem_cons_of_mem y (ih (earlier ++ [y]) x hx)
    · rw [keepScan, if_neg h] at hx
      rcases List.mem_cons.mp hx with hx | hx
      · rw [hx]; exact List.mem_cons_self y rest
      · exact List.mem_cons_of_mem y (ih (earlier ++ [y]) x hx)

/-- The survivors of the scan are pairwise non-duplicates, and none of them
is a duplicate of any already-scanned element. -/
theorem keepScan_sound (l : List Log) :
    ∀ earlier, (keepScan earlier l).Pairwise nonDupPair ∧
      ∀ y ∈ keepScan earlier l, ∀ e ∈ earlier, nonDupPair e y := by
  induction l with
  | nil =>
    intro earlier
    constructor
    · rw [show keepScan earlier [] = [] from rfl]
      exact List.Pairwise.nil
    · intro y hy
      rw [show keepScan earlier [] = [] from rfl] at hy
      exact absurd hy (List.not_mem_nil y)
  | cons x rest ih =>
    intro earlier
    by_cases h : earlier.any fun e => is_duplicate e.message x.message DUPLICATE_THRESHOLD
    · rw [keepScan, if_pos h]
      rcases ih (earlier ++ [x]) with ⟨pw, mem⟩
      refine ⟨pw, fun y hy e he => mem y hy e ?_⟩
      exact List.mem_append_left [x] he
    · rw [keepScan, if_neg h]
      rcases ih (earlier ++ [x]) with ⟨pw, mem⟩
      have hx : ∀ e ∈ earlier, nonDupPair e x := by
        intro e he
        unfold nonDupPair
        by_contra hcon
        have hb : is_duplicate e.message x.message DUPLICATE_THRESHOLD = true := by
          cases hval : is_duplicate e.message x.message DUPLICATE_THRESHOLD
          · exact absurd hval hcon
          · rfl
        exact h (List.any_eq_true.mpr ⟨e, he, hb⟩)
      constructor
      · refine List.Pairwise.cons ?_ pw
        intro y hy
        exact mem y hy x (List.mem_append_right earlier (List.mem_cons_self x []))
      · intro y hy e he
        rcases List.mem_cons.mp hy with hy | hy
        · rw [hy]; exact hx e he
        · exact mem y hy e (List.mem_append_left [x] he)

/-- Scanning a pairwise non-duplicate list, starting from scanned elements
that duplicate none of it, keeps every element. -/
theorem keepScan_of_pairwise (l : List Log) :
    ∀ earlier, l.Pairwise nonDupPair →
      (∀ e ∈ earlier, ∀ x ∈ l, nonDupPair e x) → keepScan earlier l = l := by
  induction l with
  | nil => intro earlier _ _; rfl
  | cons x rest ih =>
    intro earlier hpw hearlier
    rcases List.pairwise_cons.mp hpw with ⟨hx, hrest⟩
    have hany : (earlier.any fun e =>
        is_duplicate e.message x.message DUPLICATE_THRESHOLD) = false := by
      rw [List.any_eq_false]
      intro e he
      have := hearlier e he x (List.mem_cons_self x rest)
      unfold nonDupPair at this
      simp [this]
    rw [keepScan, if_neg (by simp [hany])]
    congr 1
    refine ih (earlier ++ [x]) hrest ?_
    intro e he y hy
    rcases List.mem_append.mp he with he | he
    · exact hearlier e he y (List.mem_cons_of_mem x hy)
    · rw [List.mem_singleton.mp he]
      exact hx y hy

/-- C3: the deduplicator is idempotent.  The survivors of
`remove_useless_logs` are pairwise non-duplicates, so applying it again to
its own output — taken in any order, since Python re-emits the surviving
set in unspecified iteration order — removes nothing and returns the same
set of records. -/
theorem remove_useless_logs_idempotent (l l' : List Log)
    (h : l'.Perm (remove_useless_logs l)) :
    remove_useless_logs l' = l' := by
  have pw : (remove_useless_logs l).Pairwise nonDupPair :=
    (keepScan_sound l []).1
  have pw' : l'.Pairwise nonDupPair :=
    (List.Perm.pairwise_iff (fun hab => nonDupPair_symm hab) h).mpr pw
  refine keepScan_of_pairwise l' [] pw' ?_
  intro e he
  exact absurd he (List.not_mem_nil e)

/-- Witness for C3 on a concrete batch: `logB` is a near-duplicate of
`logA`, one pass keeps `[logA]`, and a second pass leaves it unchanged. -/
theorem remove_useless_logs_idempotent_witness :
    remove_useless_logs [logA] = [logA] :=
  remove_useless_logs_idempotent [logA, logB] [logA] (by decide)

/-- C10: `remove_useless_logs` never invents records and never empties a
non-empty batch: every output record is an element of the input, the first
input element always survives (only later elements can be removed), and so
a non-empty input yields a non-empty output. -/
theorem remove_useless_logs_conservative (l : List Log) :
    (∀ x ∈ remove_useless_logs l, x ∈ l) ∧
    (∀ x rest, l = x :: rest →
      x ∈ remove_useless_logs l ∧ remove_useless_logs l ≠ []) := by
  constructor
  · exact keepScan_subset l []
  · intro x rest hl
    have hfirst : remove_useless_logs (x :: rest) = x :: keepScan [x] rest := by
      unfold remove_useless_logs
      rw [keepScan, if_neg (by simp)]
      rfl
    rw [hl, hfirst]
    exact ⟨List.mem_cons_self x _, by simp⟩

/-- Witness for C10 at a concrete non-empty batch. -/
theorem remove_useless_logs_conservative_witness :
    logA ∈ remove_useless_logs [logA, logB] ∧ remove_useless_logs [logA, logB] ≠ [] :=
  (remove_useless_logs_conservative [logA, logB]).2 logA [logB] rfl

/-! ## Cursor lemmas (claim C4) -/

/-- `pymax` computes the lattice maximum of the two datetime keys. -/
theorem pymax_key (x y : DateTime) : (pymax x y).key = max x.key y.key := by
  unfold pymax DateTime.pylt
  by_cases h : x.key < y.key
  · rw [if_pos (by simpa using h)]
    exact (max_eq_right (le_of_lt h)).symm
  · rw [if_neg (by simpa using h)]
    exact (max_eq_left (le_of_not_lt h)).symm

/-- Folding the record-processing step never decreases the cursor. -/
theorem cursor_le_foldl (rs : List Log) :
    ∀ st : List (Str × List Log) × DateTime,
      st.2.key ≤ (rs.foldl recordStep st).2.key := by
  induction rs with
  | nil => intro st; exact le_refl _
  | cons r rest ih =>
    intro st
    refine le_trans ?_ (ih (recordStep st r))
    rw [show (recordStep st r).2 = pymax r.date st.2 from rfl, pymax_key]
    exact le_max_right _ _

/-- C4: the cursor is monotonically non-decreasing.  Processing one record
sets the cursor to the maximum of its previous value and the record's
timestamp, and hence over every sequence of fetched records — split
arbitrarily into a processed part and a remainder — the cursor never moves
backwards. -/
theorem cursor_monotone :
    (∀ (st : List (Str × List Log) × DateTime) (r : Log),
        ((recordStep st r).2).key = max r.date.key st.2.key) ∧
    (∀ (res : List (Str × List Log)) (c : DateTime) (pre suf : List Log),
        ((pre.foldl recordStep (res, c)).2).key ≤
          (((pre ++ suf).foldl recordStep (res, c)).2).key) := by
  constructor
  · intro st r
    rw [show (recordStep st r).2 = pymax r.date st.2 from rfl, pymax_key]
  · intro res c pre suf
    rw [List.foldl_append]
    exact cursor_le_foldl suf _

/-! ## Grouping lemmas (claim C5) -/

/-- Effect of `addRecord` on a lookup: the record lands at the end of its
application's sequence, opening a new entry when none exists. -/
theorem lookup_addRecord (r : Log) (a : Str) :
    ∀ acc : List (Str × List Log),
      lookupApp a (addRecord acc r) =
        match lookupApp a acc with
        | some l => if r.application = a then some (l ++ [r]) else some l
        | none => if r.application = a then some [r] else none := by
  intro acc
  induction acc with
  | nil =>
    by_cases ha : r.application = a
    · simp [addRecord, lookupApp, ha]
    · simp [addRecord, lookupApp, ha]
  | cons p rest ih =>
    by_cases hp : p.1 = r.application
    · by_cases ha : p.1 = a
      · have hra : r.application = a := hp ▸ ha
        simp [addRecord, lookupApp, hp, ha, hra]
      · have hra : ¬r.application = a := fun hcon => ha (hp.symm ▸ hcon)
        simp only [addRecord, if_pos hp, lookupApp, if_neg ha]
        cases hlr : lookupApp a rest <;> simp [hra]
    · by_cases ha : p.1 = a
      · have hra : ¬r.application = a := fun hcon => hp (hcon.symm ▸ ha)
        have hp2 : ¬a = r.application := fun hcon => hra hcon.symm
        simp [addRecord, lookupApp, hp, ha, hra, hp2]
      · simp only [addRecord, if_neg hp, lookupApp, if_neg ha]
        exact ih

/-- Folding a record sequence into the grouped mapping appends, for each
application, exactly its records in arrival order. -/
theorem lookup_foldl_addRecord (rs : List Log) :
    ∀ (acc : List (Str × List Log)) (a : Str),
      lookupApp a (rs.foldl addRecord acc) =
        match lookupApp a acc with
        | some l => some (l ++ rs.filter fun r => decide (r.application = a))
        | none =>
          if rs.any (fun r => decide (r.application = a)) then
            some (rs.filter fun r => decide (r.application = a))
          else none := by
  induction rs with
  | nil =>
    intro acc a
    cases h : lookupApp a acc <;> simp [h]
  | cons r rest ih =>
    intro acc a
    rw [List.foldl_cons, ih (addRecord acc r) a, lookup_addRecord r a acc]
    by_cases hra : r.application = a
    · cases h : lookupApp a acc with
      | some l => simp [hra, List.filter_cons, List.append_assoc]
      | none => simp [hra, List.filter_cons, List.any_cons]
    · cases h : lookupApp a acc with
      | some l => simp [hra, List.filter_cons]
      | none => simp [hra, List.filter_cons, List.any_cons]

/-- The grouped-mapping component of the record fold ignores the cursor. -/
theorem fst_foldl_recordStep (rs : List Log) :
    ∀ st : List (Str × List Log) × DateTime,
      (rs.foldl recordStep st).1 = rs.foldl addRecord st.1 := by
  induction rs with
  | nil => intro st; rfl
  | cons r rest ih =>
    intro st
    rw [List.foldl_cons, List.foldl_cons, ih (recordStep st r)]
    rfl

/-- The pagination loop consumes exactly the pages before the first empty
page. -/
theorem load_pages_eq_flatten (pages : List (List Log)) :
    ∀ st, load_pages pages st = (flattenBefore pages).foldl recordStep st := by
  induction pages with
  | nil => intro st; rfl
  | cons page rest ih =>
    intro st
    by_cases h : page.isEmpty
    · simp [load_pages, flattenBefore, h]
    · rw [show load_pages (page :: rest) st = load_pages rest (page.foldl recordStep st) by
        simp [load_pages, h]]
      rw [ih (page.foldl recordStep st)]
      rw [show flattenBefore (page :: rest) = page ++ flattenBefore rest by
        simp [flattenBefore, h]]
      rw [List.foldl_append]

/-- Applying the deduplicator entrywise commutes with lookup. -/
theorem lookup_map_dedup (a : Str) :
    ∀ m : List (Str × List Log),
      lookupApp a (m.map fun p => (p.1, remove_useless_logs p.2)) =
        (lookupApp a m).map remove_useless_logs := by
  intro m
  induction m with
  | nil => rfl
  | cons p rest ih =>
    by_cases h : p.1 = a
    · simp [lookupApp, h]
    · simp [lookupApp, h, ih]

/-- C5: for a source whose pages eventually become empty, the pagination
loop stops at the first empty page; every record fetched before that is
appended to the sequence keyed by its application name (and nothing else
appears there), and the deduplicator is applied exactly once to each
application's raw arrival sequence before the grouped mapping is
returned. -/
theorem load_groups_and_dedups (pages : List (List Log)) (cursor : DateTime) (a : Str)
    (_hterm : [] ∈ pages) :
    lookupApp a (load pages cursor).1 =
      if (flattenBefore pages).any (fun r => decide (r.application = a)) then
        some (remove_useless_logs
          ((flattenBefore pages).filter fun r => decide (r.application = a)))
      else none := by
  have h1 : (load pages cursor).1 =
      (load_pages pages ([], cursor)).1.map fun p => (p.1, remove_useless_logs p.2) := rfl
  rw [h1, lookup_map_dedup, load_pages_eq_flatten pages ([], cursor),
    fst_foldl_recordStep (flattenBefore pages) ([], cursor)]
  rw [lookup_foldl_addRecord (flattenBefore pages) [] a]
  by_cases hany : (flattenBefore pages).any fun r => decide (r.application = a)
  · simp [lookupApp, hany]
  · simp [lookupApp, hany]

/-- Witness for C5 on a concrete source: one non-empty page of three
records followed by the terminating empty page. -/
theorem load_groups_and_dedups_witness :
    lookupApp "svc".data (load samplePages ⟨2023, 1, 1, 0, 0, 0, 0⟩).1 =
      some (remove_useless_logs ((flattenBefore samplePages).filter fun r =>
        decide (r.application = "svc".data))) := by
  rw [load_groups_and_dedups samplePages ⟨2023, 1, 1, 0, 0, 0, 0⟩ "svc".data (by decide)]
  rw [if_pos (by decide)]
